import Mathlib

/-!
# CLASP Python client — verification of the protocol session engine

Shallow embedding of `src/bindings/python/python/clasp/client.py`:
the wildcard pattern matcher (`_match_pattern`, built on Python's
`fnmatch`), the binary frame codec (`_encode`/`_decode` over a msgpack
payload), and the session view used by `get`, `_handle_message` and
`_notify_subscribers`.

Modelling conventions:
* Python byte strings are `List Nat` with entries `< 256`.
* Python strings used as msgpack data are their UTF-8 byte lists
  (the UTF-8 codec is a bijection on valid data and external to the
  client); addresses and patterns, which never cross the codec in the
  claims below, stay Lean `String`s.
* `fnmatch.fnmatch` is modelled after CPython's `fnmatch.translate` on
  a POSIX system (`os.path.normcase` is the identity there): `*` → `.*`,
  `?` → `.`, and `[...]` classes with the translator's exact bracket
  scan, where negation is `!` (a leading `^` is escaped to a literal
  class member).
-/

namespace Clasp

/-! ## The three `str.replace` passes of `_match_pattern`

`fn_pattern = pattern.replace("**", "§§").replace("*", "[^/]*").replace("§§", "*")`

Python `str.replace` substitutes non-overlapping occurrences left to
right; each pass below is that scan specialised to its fixed needle. -/

/-- `pattern.replace("**", "§§")`. -/
def subStars : List Char → List Char
  | '*' :: '*' :: rest => '§' :: '§' :: subStars rest
  | c :: rest => c :: subStars rest
  | [] => []

/-- `.replace("*", "[^/]*")`. -/
def subStar : List Char → List Char
  | '*' :: rest => '[' :: '^' :: '/' :: ']' :: '*' :: subStar rest
  | c :: rest => c :: subStar rest
  | [] => []

/-- `.replace("§§", "*")`. -/
def subSections : List Char → List Char
  | '§' :: '§' :: rest => '*' :: subSections rest
  | c :: rest => c :: subSections rest
  | [] => []

/-! ## `fnmatch` glob matching (CPython `fnmatch.translate` semantics) -/

/-- Index of the first `']'` in a list, if any. -/
def findClose : List Char → Option Nat
  | [] => none
  | ']' :: _ => some 0
  | _ :: t => (findClose t).map (· + 1)

/-- CPython's bracket scan: given the characters after a `'['`, return the
class body (`stuff`) and the pattern after the closing `']'`, or `none` when
there is no closing bracket (the `'['` is then a literal).  The scan skips a
leading `'!'` and then a leading `']'` before looking for the close, exactly
as `fnmatch.translate` does. -/
def classSplit (l : List Char) : Option (List Char × List Char) :=
  let j0 : Nat := if l.head? = some '!' then 1 else 0
  let j1 : Nat := if (l.drop j0).head? = some ']' then j0 + 1 else j0
  match findClose (l.drop j1) with
  | none => none
  | some m => some (l.take (j1 + m), l.drop (j1 + m + 1))

/-- Membership of a character in a (non-negated) class body, with `a-b`
ranges as in the regex `fnmatch.translate` produces. -/
def classMember : List Char → Char → Bool
  | [], _ => false
  | a :: '-' :: b :: t, c => (a ≤ c && c ≤ b) || classMember t c
  | a :: t, c => (a == c) || classMember t c

/-- Class test including negation: `fnmatch` negates on a leading `'!'`
only; a leading `'^'` is escaped by the translator and is an ordinary
member. -/
def classMatches (stuff : List Char) (c : Char) : Bool :=
  match stuff with
  | '!' :: t => !(classMember t c)
  | _ => classMember stuff c

/-- Full-string glob matching with `fnmatch.translate` semantics, written
with explicit fuel so that it computes by kernel reduction: `*` matches any
run of characters (the produced regex runs in DOTALL mode), `?` any single
character, `[...]` a class via `classSplit` / `classMatches` (an
unterminated `[` is a literal), all else literal.  Every recursive call
shortens `p.length + s.length`, so fuel `p.length + s.length + 1` is
enough. -/
def globMatchF : Nat → List Char → List Char → Bool
  | 0, _, _ => false
  | _ + 1, [], s => s.isEmpty
  | fuel + 1, a :: p, s =>
    if a = '*' then
      globMatchF fuel p s ||
        (match s with
         | [] => false
         | _ :: s' => globMatchF fuel (a :: p) s')
    else if a = '?' then
      (match s with
       | [] => false
       | _ :: s' => globMatchF fuel p s')
    else if a = '[' then
      (match classSplit p with
       | none =>
         (match s with
          | b :: s' => (b == '[') && globMatchF fuel p s'
          | [] => false)
       | some (stuff, p') =>
         (match s with
          | [] => false
          | c :: s' => classMatches stuff c && globMatchF fuel p' s'))
    else
      (match s with
       | c :: s' => (a == c) && globMatchF fuel p s'
       | [] => false)

/-- `fnmatch.fnmatch(s, p)` on POSIX (where `normcase` is the identity). -/
def fnmatchB (p s : List Char) : Bool :=
  globMatchF (p.length + s.length + 1) p s

/-! ## `Clasp._match_pattern` -/

/-- The pattern rewrite performed by `_match_pattern`:
`pattern.replace("**", "§§").replace("*", "[^/]*").replace("§§", "*")`. -/
def transformPattern (p : List Char) : List Char :=
  subSections (subStar (subStars p))

/-- `Clasp._match_pattern(pattern, address)`: rewrite the CLASP pattern and
evaluate it with `fnmatch.fnmatch` against the full address. -/
def matchPattern (pattern address : String) : Bool :=
  fnmatchB (transformPattern pattern.data) address.data

/-! ## Patterns without special characters -/

/-- `p` contains none of the characters `fnmatch` or the pattern rewrite
treats specially: `*` (wildcards), `?` (fnmatch single-char), `[` (fnmatch
class opener). -/
def noWildcards (p : List Char) : Bool :=
  p.all fun c => !(c == '*' || c == '?' || c == '[')

/-- `p` does not contain the two-character internal sentinel `§§` that the
rewrite restores into a `*`. -/
def noSentinel : List Char → Bool
  | '§' :: '§' :: _ => false
  | _ :: t => noSentinel t
  | [] => true

theorem subStars_id (p : List Char) (h : '*' ∉ p) : subStars p = p := by
  induction p with
  | nil => rfl
  | cons c rest ih =>
    rw [subStars.eq_def]
    split
    · rename_i heq
      rw [List.cons.injEq] at heq
      exact absurd (heq.1 ▸ List.mem_cons_self c rest) h
    · rename_i c' rest' heq
      rw [List.cons.injEq] at heq
      obtain ⟨rfl, rfl⟩ := heq
      rw [ih (fun hm => h (List.mem_cons_of_mem _ hm))]
    · simp at *

theorem subStar_id (p : List Char) (h : '*' ∉ p) : subStar p = p := by
  induction p with
  | nil => rfl
  | cons c rest ih =>
    rw [subStar.eq_def]
    split
    · rename_i heq
      rw [List.cons.injEq] at heq
      exact absurd (heq.1 ▸ List.mem_cons_self c rest) h
    · rename_i c' rest' heq
      rw [List.cons.injEq] at heq
      obtain ⟨rfl, rfl⟩ := heq
      rw [ih (fun hm => h (List.mem_cons_of_mem _ hm))]
    · simp at *

theorem subSections_id (p : List Char) (h : noSentinel p = true) :
    subSections p = p := by
  induction p with
  | nil => rfl
  | cons c rest ih =>
    rw [subSections.eq_def]
    split
    · rename_i heq
      rw [List.cons.injEq] at heq
      obtain ⟨rfl, rfl⟩ := heq
      simp [noSentinel] at h
    · rename_i c' rest' heq
      rw [List.cons.injEq] at heq
      obtain ⟨rfl, rfl⟩ := heq
      have hrest : noSentinel rest = true := by
        rw [noSentinel.eq_def] at h
        split at h
        · exact absurd h (by simp)
        · rename_i heq'
          rw [List.cons.injEq] at heq'
          exact heq'.2 ▸ h
        · simp at *
      rw [ih hrest]
    · simp at *

theorem transformPattern_id (p : List Char) (h1 : noWildcards p = true)
    (h2 : noSentinel p = true) : transformPattern p = p := by
  have hstar : '*' ∉ p := by
    intro hm
    have := List.all_eq_true.mp h1 _ hm
    simp at this
  unfold transformPattern
  rw [subStars_id p hstar, subStar_id p hstar, subSections_id p h2]

/-- On a pattern with no special characters, glob matching is literal
comparison. -/
theorem globMatchF_literal (fuel : Nat) :
    ∀ (p s : List Char), noWildcards p = true → p.length < fuel →
      (globMatchF fuel p s = true ↔ s = p) := by
  induction fuel with
  | zero => intro p s _ hlt; omega
  | succ f ih =>
    intro p s h hlt
    cases p with
    | nil => cases s <;> simp [globMatchF]
    | cons a p' =>
      have ha : ¬(a = '*' ∨ a = '?' ∨ a = '[') := by
        intro hc
        have := List.all_eq_true.mp h a (List.mem_cons_self a p')
        rcases hc with rfl | rfl | rfl <;> simp at this
      have hp' : noWildcards p' = true := by
        rw [noWildcards] at h ⊢
        exact List.all_eq_true.mpr fun c hc =>
          List.all_eq_true.mp h c (List.mem_cons_of_mem _ hc)
      have ha1 : a ≠ '*' := fun hc => ha (Or.inl hc)
      have ha2 : a ≠ '?' := fun hc => ha (Or.inr (Or.inl hc))
      have ha3 : a ≠ '[' := fun hc => ha (Or.inr (Or.inr hc))
      have hstep : globMatchF (f + 1) (a :: p') s =
          (match s with
           | c :: s' => (a == c) && globMatchF f p' s'
           | [] => false) := by
        simp only [globMatchF, if_neg ha1, if_neg ha2, if_neg ha3]
      rw [hstep]
      cases s with
      | nil => simp
      | cons c s' =>
        have hlen : p'.length < f := by
          simp only [List.length_cons] at hlt; omega
        simp only [List.cons.injEq, Bool.and_eq_true, beq_iff_eq]
        rw [ih p' s' hp' hlen]
        constructor
        · rintro ⟨rfl, rfl⟩; exact ⟨rfl, rfl⟩
        · rintro ⟨rfl, rfl⟩; exact ⟨rfl, rfl⟩

/-! ## Claims C1–C3: pattern matching -/

/-- **C1** (code bug): the claim — and the repository's own test
`test_single_wildcard` — say `*` matches exactly one non-empty slash-free
segment, so `match("/test/*/value", "/test/foo/value")` should hold.  The
code rewrites `*` into the fnmatch class-and-star `[^/]*`, but fnmatch
negates classes with `!`, not `^`, so `[^/]` matches only a literal `^` or
`/`: the match fails on ordinary segments and holds exactly when the
segment starts with `^` or `/`. -/
theorem star_wildcard_code_divergence :
    matchPattern "/test/*/value" "/test/foo/value" = false ∧
    matchPattern "/a/*/c" "/a/b/c" = false ∧
    matchPattern "/a/*/c" "/a/^b/c" = true ∧
    matchPattern "/a/*/c" "/a//d/c" = true ∧
    matchPattern "/a/*/c" "/a/c" = false := by decide

/-- **C2** (code bug): the claim — and the repository's own tests
`test_multi_wildcard` and `test_trailing_wildcard` — say `**` matches zero
or more whole segments, so `match("/a/**/d", "/a/d")` and
`match("/test/**", "/test")` should hold.  The code rewrites `**` into a
bare fnmatch `*` while keeping the surrounding slashes literal, so the
zero-segment expansion fails (one or more segments still match, and a
pattern ending in `/**` matches `prefix + "/"` but not its bare prefix). -/
theorem doublestar_wildcard_code_divergence :
    matchPattern "/a/**/d" "/a/d" = false ∧
    matchPattern "/test/**/value" "/test/value" = false ∧
    matchPattern "/test/**" "/test" = false ∧
    matchPattern "/a/**/d" "/a/b/c/d" = true ∧
    matchPattern "/a/**/d" "/a/b/d" = true ∧
    matchPattern "/test/**" "/test/foo" = true := by decide

/-- **C3** (counterexample): the claim "for every pattern without
wildcards, match(P, A) ⇔ P == A" fails for `P = "/a?"`, `A = "/ab"`: the
pattern contains no wildcard (`*`/`**`) of the CLASP grammar, yet fnmatch
treats `?` as match-any-character, so the pattern matches an address it is
not equal to. -/
theorem match_exact_counterexample :
    matchPattern "/a?" "/ab" = true ∧ "/a?" ≠ "/ab" := by
  exact ⟨by decide, by decide⟩

/-- **C3** (amended): for every pattern free of the wildcard `*` and of
fnmatch's additional special characters `?` and `[`, and not containing the
rewrite's internal sentinel `§§`, match(P, A) ⇔ P == A. -/
theorem match_exact_iff (P A : String)
    (h1 : noWildcards P.data = true) (h2 : noSentinel P.data = true) :
    matchPattern P A = true ↔ P = A := by
  unfold matchPattern fnmatchB
  rw [transformPattern_id P.data h1 h2]
  rw [globMatchF_literal (P.data.length + A.data.length + 1) P.data A.data h1
    (by omega)]
  constructor
  · intro h; exact String.ext h.symm
  · intro h; rw [h]

/-- **C3** witness: the amended equivalence applied at a concrete
wildcard-free pattern. -/
theorem match_exact_iff_witness :
    (noWildcards "/test/path".data = true ∧ noSentinel "/test/path".data = true) ∧
    (matchPattern "/test/path" "/test/path" = true ↔ "/test/path" = "/test/path") :=
  ⟨⟨by decide, by decide⟩,
    match_exact_iff "/test/path" "/test/path" (by decide) (by decide)⟩

/-! ## msgpack payload codec

`_encode`/`_decode` serialize the message through `msgpack.packb` /
`msgpack.unpackb(raw=False)`.  The library is external to the repository;
it is modelled here from the MessagePack specification as msgpack-python
implements it with its default options: ints take the smallest format
(positive fixint / uint8-64, negative fixint / int8-64), strings take
fixstr / str8 / str16 / str32 (`use_bin_type=True` enables str8), binary
takes bin8/16/32, floats are float64 (the value is kept as its 8-byte
big-endian bit pattern, which round-trips exactly), arrays take
fixarray / array16 / array32 and maps fixmap / map16 / map32.  Message
dictionaries have string keys, so map keys are modelled as byte strings.
`unpackb` rejects trailing bytes (ExtraData) — mirrored by demanding full
consumption. -/

/-- Big-endian bytes: `beBytes k n` is the `k`-byte big-endian encoding of
`n % 256^k`. -/
def beBytes : Nat → Nat → List Nat
  | 0, _ => []
  | k + 1, n => (n / 256 ^ k) % 256 :: beBytes k n

/-- Big-endian value of a byte list. -/
def fromBE : List Nat → Nat
  | [] => 0
  | b :: t => b * 256 ^ t.length + fromBE t

theorem beBytes_length (k n : Nat) : (beBytes k n).length = k := by
  induction k generalizing n with
  | zero => rfl
  | succ k ih => simp [beBytes, ih]

theorem fromBE_beBytes (k n : Nat) : fromBE (beBytes k n) = n % 256 ^ k := by
  induction k generalizing n with
  | zero => simp [beBytes, fromBE, Nat.mod_one]
  | succ k ih =>
    rw [beBytes, fromBE, ih, beBytes_length]
    have h : 256 ^ (k + 1) = 256 ^ k * 256 := by ring
    rw [h, Nat.mod_mul]
    ring

theorem fromBE_beBytes_of_lt {k n : Nat} (h : n < 256 ^ k) :
    fromBE (beBytes k n) = n := by
  rw [fromBE_beBytes, Nat.mod_eq_of_lt h]

/-- Read exactly `k` bytes from the front of a list. -/
def readN (k : Nat) (l : List Nat) : Option (List Nat × List Nat) :=
  if k ≤ l.length then some (l.take k, l.drop k) else none

theorem readN_exact {k : Nat} {xs : List Nat} (rest : List Nat)
    (h : xs.length = k) : readN k (xs ++ rest) = some (xs, rest) := by
  subst h
  rw [readN, if_pos (by simp), List.take_left, List.drop_left]

/-- A length field of `k` bytes followed by that many data bytes. -/
def readLenData (k : Nat) (l : List Nat) : Option (List Nat × List Nat) :=
  match readN k l with
  | none => none
  | some (lb, r) =>
    match readN (fromBE lb) r with
    | none => none
    | some (s, r') => some (s, r')

theorem readLenData_exact {k : Nat} {s : List Nat} (rest : List Nat)
    (h : s.length < 256 ^ k) :
    readLenData k (beBytes k s.length ++ (s ++ rest)) = some (s, rest) := by
  rw [readLenData, readN_exact (s ++ rest) (beBytes_length k s.length)]
  dsimp only
  rw [fromBE_beBytes_of_lt h, readN_exact rest rfl]

mutual
/-- A msgpack value: the Python values that CLASP messages carry.  Floats
are kept as their IEEE-754 bit pattern (8 bytes, big-endian, as a `Nat`);
strings and binary are byte lists; map keys are the (string) keys of the
message dictionaries. -/
inductive MVal : Type where
  | nil : MVal
  | bool (b : Bool) : MVal
  | int (n : Int) : MVal
  | flt (bits : Nat) : MVal
  | str (s : List Nat) : MVal
  | bin (b : List Nat) : MVal
  | arr (vs : MList) : MVal
  | map (kvs : MPairs) : MVal

/-- A list of msgpack values (spelled out so the mutual recursion stays
structural). -/
inductive MList : Type where
  | mnil : MList
  | mcons (v : MVal) (vs : MList) : MList

/-- An ordered list of key/value pairs of a msgpack map with string keys. -/
inductive MPairs : Type where
  | pnil : MPairs
  | pcons (k : List Nat) (v : MVal) (rest : MPairs) : MPairs
end

def MList.length : MList → Nat
  | .mnil => 0
  | .mcons _ vs => vs.length + 1

def MPairs.length : MPairs → Nat
  | .pnil => 0
  | .pcons _ _ rest => rest.length + 1

/-- msgpack string header (fixstr / str8 / str16 / str32). -/
def strHeader (L : Nat) : List Nat :=
  if L ≤ 31 then [0xa0 + L]
  else if L ≤ 0xff then 0xd9 :: beBytes 1 L
  else if L ≤ 0xffff then 0xda :: beBytes 2 L
  else 0xdb :: beBytes 4 L

/-- msgpack binary header (bin8 / bin16 / bin32). -/
def binHeader (L : Nat) : List Nat :=
  if L ≤ 0xff then 0xc4 :: beBytes 1 L
  else if L ≤ 0xffff then 0xc5 :: beBytes 2 L
  else 0xc6 :: beBytes 4 L

/-- msgpack array header (fixarray / array16 / array32). -/
def arrHeader (L : Nat) : List Nat :=
  if L ≤ 15 then [0x90 + L]
  else if L ≤ 0xffff then 0xdc :: beBytes 2 L
  else 0xdd :: beBytes 4 L

/-- msgpack map header (fixmap / map16 / map32). -/
def mapHeader (L : Nat) : List Nat :=
  if L ≤ 15 then [0x80 + L]
  else if L ≤ 0xffff then 0xde :: beBytes 2 L
  else 0xdf :: beBytes 4 L

/-- msgpack integer packing, smallest format first, as in msgpack-python's
packer: positive/negative fixint, then uint8/16/32/64 or int8/16/32/64.
Negative values are stored in two's complement (`n + 2^(8k)`). -/
def packInt (n : Int) : List Nat :=
  if n < -(2 ^ 5) then
    if n < -(2 ^ 15) then
      if n < -(2 ^ 31) then 0xd3 :: beBytes 8 (n + 2 ^ 64).toNat
      else 0xd2 :: beBytes 4 (n + 2 ^ 32).toNat
    else
      if n < -(2 ^ 7) then 0xd1 :: beBytes 2 (n + 2 ^ 16).toNat
      else 0xd0 :: beBytes 1 (n + 2 ^ 8).toNat
  else if n < 2 ^ 7 then [(n % 256).toNat]
  else if n < 2 ^ 8 then 0xcc :: beBytes 1 n.toNat
  else if n < 2 ^ 16 then 0xcd :: beBytes 2 n.toNat
  else if n < 2 ^ 32 then 0xce :: beBytes 4 n.toNat
  else 0xcf :: beBytes 8 n.toNat

mutual
/-- `msgpack.packb` on a value. -/
def packV : MVal → List Nat
  | .nil => [0xc0]
  | .bool false => [0xc2]
  | .bool true => [0xc3]
  | .int n => packInt n
  | .flt bits => 0xcb :: beBytes 8 bits
  | .str s => strHeader s.length ++ s
  | .bin b => binHeader b.length ++ b
  | .arr vs => arrHeader vs.length ++ packL vs
  | .map kvs => mapHeader kvs.length ++ packP kvs

def packL : MList → List Nat
  | .mnil => []
  | .mcons v vs => packV v ++ packL vs

def packP : MPairs → List Nat
  | .pnil => []
  | .pcons k v rest => (strHeader k.length ++ k) ++ (packV v ++ packP rest)
end

mutual
/-- Well-formedness of a msgpack value: every numeric field fits the
largest wire format (ints in `[-2^63, 2^64)` — beyond those
`msgpack.packb` raises — float bit patterns in 64 bits, byte entries
below 256, lengths below `2^32`). -/
def wfV : MVal → Bool
  | .nil => true
  | .bool _ => true
  | .int n => decide (-(2 ^ 63) ≤ n) && decide (n < 2 ^ 64)
  | .flt bits => decide (bits < 2 ^ 64)
  | .str s => decide (s.length < 2 ^ 32) && s.all fun x => decide (x < 256)
  | .bin b => decide (b.length < 2 ^ 32) && b.all fun x => decide (x < 256)
  | .arr vs => decide (vs.length < 2 ^ 32) && wfL vs
  | .map kvs => decide (kvs.length < 2 ^ 32) && wfP kvs

def wfL : MList → Bool
  | .mnil => true
  | .mcons v vs => wfV v && wfL vs

def wfP : MPairs → Bool
  | .pnil => true
  | .pcons k v rest =>
    decide (k.length < 2 ^ 32) && (k.all fun x => decide (x < 256)) &&
      wfV v && wfP rest
end

mutual
/-- Fuel sufficient for `parseV` to reconstruct a value (one unit per
parser call along the deepest call path). -/
def needV : MVal → Nat
  | .nil => 1
  | .bool _ => 1
  | .int _ => 1
  | .flt _ => 1
  | .str _ => 1
  | .bin _ => 1
  | .arr vs => needL vs + 1
  | .map kvs => needP kvs + 1

def needL : MList → Nat
  | .mnil => 0
  | .mcons v vs => max (needV v) (needL vs) + 1

def needP : MPairs → Nat
  | .pnil => 0
  | .pcons _ v rest => max (needV v) (needP rest) + 1
end

mutual
/-- msgpack parsing of one value (the formats the packer emits; anything
else yields `none`).  `fuel` strictly decreases on every recursive call so
the definition is structural and computes in the kernel; `needV v` units
are enough to parse `packV v`. -/
def parseV : Nat → List Nat → Option (MVal × List Nat)
  | 0, _ => none
  | _ + 1, [] => none
  | fuel + 1, b :: rest =>
    if b < 0x80 then some (.int (b : Int), rest)
    else if 0xe0 ≤ b ∧ b ≤ 0xff then some (.int ((b : Int) - 256), rest)
    else if b < 0x90 then
      match parsePairs fuel (b - 0x80) rest with
      | none => none
      | some (kvs, r) => some (.map kvs, r)
    else if b < 0xa0 then
      match parseList fuel (b - 0x90) rest with
      | none => none
      | some (vs, r) => some (.arr vs, r)
    else if b < 0xc0 then
      match readN (b - 0xa0) rest with
      | none => none
      | some (s, r) => some (.str s, r)
    else if b = 0xc0 then some (.nil, rest)
    else if b = 0xc2 then some (.bool false, rest)
    else if b = 0xc3 then some (.bool true, rest)
    else if b = 0xc4 then
      match readLenData 1 rest with
      | none => none
      | some (s, r) => some (.bin s, r)
    else if b = 0xc5 then
      match readLenData 2 rest with
      | none => none
      | some (s, r) => some (.bin s, r)
    else if b = 0xc6 then
      match readLenData 4 rest with
      | none => none
      | some (s, r) => some (.bin s, r)
    else if b = 0xcb then
      match readN 8 rest with
      | none => none
      | some (bs, r) => some (.flt (fromBE bs), r)
    else if b = 0xcc then
      match readN 1 rest with
      | none => none
      | some (bs, r) => some (.int (fromBE bs : Int), r)
    else if b = 0xcd then
      match readN 2 rest with
      | none => none
      | some (bs, r) => some (.int (fromBE bs : Int), r)
    else if b = 0xce then
      match readN 4 rest with
      | none => none
      | some (bs, r) => some (.int (fromBE bs : Int), r)
    else if b = 0xcf then
      match readN 8 rest with
      | none => none
      | some (bs, r) => some (.int (fromBE bs : Int), r)
    else if b = 0xd0 then
      match readN 1 rest with
      | none => none
      | some (bs, r) =>
        some (.int (if fromBE bs < 2 ^ 7 then (fromBE bs : Int)
          else (fromBE bs : Int) - 2 ^ 8), r)
    else if b = 0xd1 then
      match readN 2 rest with
      | none => none
      | some (bs, r) =>
        some (.int (if fromBE bs < 2 ^ 15 then (fromBE bs : Int)
          else (fromBE bs : Int) - 2 ^ 16), r)
    else if b = 0xd2 then
      match readN 4 rest with
      | none => none
      | some (bs, r) =>
        some (.int (if fromBE bs < 2 ^ 31 then (fromBE bs : Int)
          else (fromBE bs : Int) - 2 ^ 32), r)
    else if b = 0xd3 then
      match readN 8 rest with
      | none => none
      | some (bs, r) =>
        some (.int (if fromBE bs < 2 ^ 63 then (fromBE bs : Int)
          else (fromBE bs : Int) - 2 ^ 64), r)
    else if b = 0xd9 then
      match readLenData 1 rest with
      | none => none
      | some (s, r) => some (.str s, r)
    else if b = 0xda then
      match readLenData 2 rest with
      | none => none
      | some (s, r) => some (.str s, r)
    else if b = 0xdb then
      match readLenData 4 rest with
      | none => none
      | some (s, r) => some (.str s, r)
    else if b = 0xdc then
      match readN 2 rest with
      | none => none
      | some (lb, r) =>
        match parseList fuel (fromBE lb) r with
        | none => none
        | some (vs, r') => some (.arr vs, r')
    else if b = 0xdd then
      match readN 4 rest with
      | none => none
      | some (lb, r) =>
        match parseList fuel (fromBE lb) r with
        | none => none
        | some (vs, r') => some (.arr vs, r')
    else if b = 0xde then
      match readN 2 rest with
      | none => none
      | some (lb, r) =>
        match parsePairs fuel (fromBE lb) r with
        | none => none
        | some (kvs, r') => some (.map kvs, r')
    else if b = 0xdf then
      match readN 4 rest with
      | none => none
      | some (lb, r) =>
        match parsePairs fuel (fromBE lb) r with
        | none => none
        | some (kvs, r') => some (.map kvs, r')
    else none

/-- Parse `n` consecutive msgpack values. -/
def parseList : Nat → Nat → List Nat → Option (MList × List Nat)
  | _, 0, l => some (.mnil, l)
  | 0, _ + 1, _ => none
  | fuel + 1, n + 1, l =>
    match parseV fuel l with
    | none => none
    | some (v, r) =>
      match parseList fuel n r with
      | none => none
      | some (vs, r') => some (.mcons v vs, r')

/-- Parse `n` consecutive key/value pairs (keys must be strings, as in a
CLASP message dictionary). -/
def parsePairs : Nat → Nat → List Nat → Option (MPairs × List Nat)
  | _, 0, l => some (.pnil, l)
  | 0, _ + 1, _ => none
  | fuel + 1, n + 1, l =>
    match parseV fuel l with
    | some (.str k, r) =>
      match parseV fuel r with
      | none => none
      | some (v, r') =>
        match parsePairs fuel n r' with
        | none => none
        | some (kvs, r'') => some (.pcons k v kvs, r'')
    | _ => none
end

/-- `msgpack.unpackb(data, raw=False)`: parse one value and require the
buffer to be fully consumed (msgpack raises ExtraData otherwise).  The
fuel `2 * data.length + 2` dominates `needV` of anything whose packing
fits in `data` (see `needV_le_pack`). -/
def unpackb (data : List Nat) : Option MVal :=
  match parseV (2 * data.length + 2) data with
  | some (v, []) => some v
  | _ => none

theorem packInt_length_pos (n : Int) : 1 ≤ (packInt n).length := by
  unfold packInt
  split_ifs <;> simp [beBytes_length]

theorem strHeader_length_pos (L : Nat) : 1 ≤ (strHeader L).length := by
  unfold strHeader
  split_ifs <;> simp [beBytes_length]

theorem binHeader_length_pos (L : Nat) : 1 ≤ (binHeader L).length := by
  unfold binHeader
  split_ifs <;> simp [beBytes_length]

theorem arrHeader_length_pos (L : Nat) : 1 ≤ (arrHeader L).length := by
  unfold arrHeader
  split_ifs <;> simp [beBytes_length]

theorem mapHeader_length_pos (L : Nat) : 1 ≤ (mapHeader L).length := by
  unfold mapHeader
  split_ifs <;> simp [beBytes_length]

theorem packV_length_pos (v : MVal) : 1 ≤ (packV v).length := by
  cases v with
  | nil => simp [packV]
  | bool b => cases b <;> simp [packV]
  | int n => exact packInt_length_pos n
  | flt bits => simp [packV]
  | str s =>
    simp only [packV, List.length_append]
    have := strHeader_length_pos s.length
    omega
  | bin b =>
    simp only [packV, List.length_append]
    have := binHeader_length_pos b.length
    omega
  | arr vs =>
    simp only [packV, List.length_append]
    have := arrHeader_length_pos vs.length
    omega
  | map kvs =>
    simp only [packV, List.length_append]
    have := mapHeader_length_pos kvs.length
    omega

theorem needV_pos (v : MVal) : 1 ≤ needV v := by
  cases v <;> simp [needV]

mutual
theorem needV_le_pack (v : MVal) : needV v ≤ 2 * (packV v).length := by
  cases v with
  | nil => simp [needV, packV]
  | bool b => cases b <;> simp [needV, packV]
  | int n =>
    have := packInt_length_pos n
    simp only [needV, packV]
    omega
  | flt bits => simp [needV, packV, beBytes_length]
  | str s =>
    have := strHeader_length_pos s.length
    simp only [needV, packV, List.length_append]
    omega
  | bin b =>
    have := binHeader_length_pos b.length
    simp only [needV, packV, List.length_append]
    omega
  | arr vs =>
    have h1 := needL_le_pack vs
    have h2 := arrHeader_length_pos vs.length
    simp only [needV, packV, List.length_append]
    omega
  | map kvs =>
    have h1 := needP_le_pack kvs
    have h2 := mapHeader_length_pos kvs.length
    simp only [needV, packV, List.length_append]
    omega

theorem needL_le_pack (vs : MList) : needL vs ≤ 2 * (packL vs).length + 1 := by
  cases vs with
  | mnil => simp [needL, packL]
  | mcons v vs =>
    have h1 := needV_le_pack v
    have h2 := needL_le_pack vs
    have h3 := packV_length_pos v
    simp only [needL, packL, List.length_append]
    omega

theorem needP_le_pack (kvs : MPairs) : needP kvs ≤ 2 * (packP kvs).length + 1 := by
  cases kvs with
  | pnil => simp [needP, packP]
  | pcons k v rest =>
    have h1 := needV_le_pack v
    have h2 := needP_le_pack rest
    have h3 := packV_length_pos v
    have h4 := strHeader_length_pos k.length
    simp only [needP, packP, List.length_append]
    omega
end

/-! Parser dispatch lemmas: one per tag byte (or tag range). -/

theorem parseV_posfix (f b : Nat) (rest : List Nat) (h : b < 0x80) :
    parseV (f + 1) (b :: rest) = some (.int (b : Int), rest) := by
  simp only [parseV]
  rw [if_pos h]

theorem parseV_negfix (f b : Nat) (rest : List Nat) (h1 : 0xe0 ≤ b)
    (h2 : b ≤ 0xff) :
    parseV (f + 1) (b :: rest) = some (.int ((b : Int) - 256), rest) := by
  simp only [parseV]
  rw [if_neg (by omega), if_pos ⟨h1, h2⟩]

theorem parseV_fixmap (f b : Nat) (rest : List Nat) (h1 : 0x80 ≤ b)
    (h2 : b < 0x90) :
    parseV (f + 1) (b :: rest) =
      (match parsePairs f (b - 0x80) rest with
       | none => none
       | some (kvs, r) => some (.map kvs, r)) := by
  simp only [parseV]
  rw [if_neg (by omega), if_neg (by omega), if_pos h2]

theorem parseV_fixarr (f b : Nat) (rest : List Nat) (h1 : 0x90 ≤ b)
    (h2 : b < 0xa0) :
    parseV (f + 1) (b :: rest) =
      (match parseList f (b - 0x90) rest with
       | none => none
       | some (vs, r) => some (.arr vs, r)) := by
  simp only [parseV]
  rw [if_neg (by omega), if_neg (by omega), if_neg (by omega), if_pos h2]

theorem parseV_fixstr (f b : Nat) (rest : List Nat) (h1 : 0xa0 ≤ b)
    (h2 : b < 0xc0) :
    parseV (f + 1) (b :: rest) =
      (match readN (b - 0xa0) rest with
       | none => none
       | some (s, r) => some (.str s, r)) := by
  simp only [parseV]
  rw [if_neg (by omega), if_neg (by omega), if_neg (by omega),
    if_neg (by omega), if_pos h2]

theorem parseV_tag_c0 (f : Nat) (rest : List Nat) :
    parseV (f + 1) (0xc0 :: rest) = some (.nil, rest) := rfl

theorem parseV_tag_c2 (f : Nat) (rest : List Nat) :
    parseV (f + 1) (0xc2 :: rest) = some (.bool false, rest) := rfl

theorem parseV_tag_c3 (f : Nat) (rest : List Nat) :
    parseV (f + 1) (0xc3 :: rest) = some (.bool true, rest) := rfl

theorem parseV_tag_c4 (f : Nat) (rest : List Nat) :
    parseV (f + 1) (0xc4 :: rest) =
      (match readLenData 1 rest with
       | none => none
       | some (s, r) => some (.bin s, r)) := rfl

theorem parseV_tag_c5 (f : Nat) (rest : List Nat) :
    parseV (f + 1) (0xc5 :: rest) =
      (match readLenData 2 rest with
       | none => none
       | some (s, r) => some (.bin s, r)) := rfl

theorem parseV_tag_c6 (f : Nat) (rest : List Nat) :
    parseV (f + 1) (0xc6 :: rest) =
      (match readLenData 4 rest with
       | none => none
       | some (s, r) => some (.bin s, r)) := rfl

theorem parseV_tag_cb (f : Nat) (rest : List Nat) :
    parseV (f + 1) (0xcb :: rest) =
      (match readN 8 rest with
       | none => none
       | some (bs, r) => some (.flt (fromBE bs), r)) := rfl

theorem parseV_tag_cc (f : Nat) (rest : List Nat) :
    parseV (f + 1) (0xcc :: rest) =
      (match readN 1 rest with
       | none => none
       | some (bs, r) => some (.int (fromBE bs : Int), r)) := rfl

theorem parseV_tag_cd (f : Nat) (rest : List Nat) :
    parseV (f + 1) (0xcd :: rest) =
      (match readN 2 rest with
       | none => none
       | some (bs, r) => some (.int (fromBE bs : Int), r)) := rfl

theorem parseV_tag_ce (f : Nat) (rest : List Nat) :
    parseV (f + 1) (0xce :: rest) =
      (match readN 4 rest with
       | none => none
       | some (bs, r) => some (.int (fromBE bs : Int), r)) := rfl

theorem parseV_tag_cf (f : Nat) (rest : List Nat) :
    parseV (f + 1) (0xcf :: rest) =
      (match readN 8 rest with
       | none => none
       | some (bs, r) => some (.int (fromBE bs : Int), r)) := rfl

theorem parseV_tag_d0 (f : Nat) (rest : List Nat) :
    parseV (f + 1) (0xd0 :: rest) =
      (match readN 1 rest with
       | none => none
       | some (bs, r) =>
         some (.int (if fromBE bs < 2 ^ 7 then (fromBE bs : Int)
           else (fromBE bs : Int) - 2 ^ 8), r)) := rfl

theorem parseV_tag_d1 (f : Nat) (rest : List Nat) :
    parseV (f + 1) (0xd1 :: rest) =
      (match readN 2 rest with
       | none => none
       | some (bs, r) =>
         some (.int (if fromBE bs < 2 ^ 15 then (fromBE bs : Int)
           else (fromBE bs : Int) - 2 ^ 16), r)) := rfl

theorem parseV_tag_d2 (f : Nat) (rest : List Nat) :
    parseV (f + 1) (0xd2 :: rest) =
      (match readN 4 rest with
       | none => none
       | some (bs, r) =>
         some (.int (if fromBE bs < 2 ^ 31 then (fromBE bs : Int)
           else (fromBE bs : Int) - 2 ^ 32), r)) := rfl

theorem parseV_tag_d3 (f : Nat) (rest : List Nat) :
    parseV (f + 1) (0xd3 :: rest) =
      (match readN 8 rest with
       | none => none
       | some (bs, r) =>
         some (.int (if fromBE bs < 2 ^ 63 then (fromBE bs : Int)
           else (fromBE bs : Int) - 2 ^ 64), r)) := rfl

theorem parseV_tag_d9 (f : Nat) (rest : List Nat) :
    parseV (f + 1) (0xd9 :: rest) =
      (match readLenData 1 rest with
       | none => none
       | some (s, r) => some (.str s, r)) := rfl

theorem parseV_tag_da (f : Nat) (rest : List Nat) :
    parseV (f + 1) (0xda :: rest) =
      (match readLenData 2 rest with
       | none => none
       | some (s, r) => some (.str s, r)) := rfl

theorem parseV_tag_db (f : Nat) (rest : List Nat) :
    parseV (f + 1) (0xdb :: rest) =
      (match readLenData 4 rest with
       | none => none
       | some (s, r) => some (.str s, r)) := rfl

theorem parseV_tag_dc (f : Nat) (rest : List Nat) :
    parseV (f + 1) (0xdc :: rest) =
      (match readN 2 rest with
       | none => none
       | some (lb, r) =>
         match parseList f (fromBE lb) r with
         | none => none
         | some (vs, r') => some (.arr vs, r')) := rfl

theorem parseV_tag_dd (f : Nat) (rest : List Nat) :
    parseV (f + 1) (0xdd :: rest) =
      (match readN 4 rest with
       | none => none
       | some (lb, r) =>
         match parseList f (fromBE lb) r with
         | none => none
         | some (vs, r') => some (.arr vs, r')) := rfl

theorem parseV_tag_de (f : Nat) (rest : List Nat) :
    parseV (f + 1) (0xde :: rest) =
      (match readN 2 rest with
       | none => none
       | some (lb, r) =>
         match parsePairs f (fromBE lb) r with
         | none => none
         | some (kvs, r') => some (.map kvs, r')) := rfl

theorem parseV_tag_df (f : Nat) (rest : List Nat) :
    parseV (f + 1) (0xdf :: rest) =
      (match readN 4 rest with
       | none => none
       | some (lb, r) =>
         match parsePairs f (fromBE lb) r with
         | none => none
         | some (kvs, r') => some (.map kvs, r')) := rfl

/-! Parsing each packed format returns the original value. -/

theorem parse_packInt (n : Int) (h1 : -(2 ^ 63) ≤ n) (h2 : n < 2 ^ 64)
    (f : Nat) (rest : List Nat) :
    parseV (f + 1) (packInt n ++ rest) = some (.int n, rest) := by
  rw [packInt]
  split_ifs with ha hb hc hd he hf hg hh
  · -- int64
    rw [List.cons_append, parseV_tag_d3, readN_exact rest (beBytes_length 8 _)]
    dsimp only
    rw [fromBE_beBytes_of_lt (by omega), if_neg (by omega)]
    simp only [Option.some.injEq, Prod.mk.injEq, MVal.int.injEq, and_true]
    omega
  · -- int32
    rw [List.cons_append, parseV_tag_d2, readN_exact rest (beBytes_length 4 _)]
    dsimp only
    rw [fromBE_beBytes_of_lt (by omega), if_neg (by omega)]
    simp only [Option.some.injEq, Prod.mk.injEq, MVal.int.injEq, and_true]
    omega
  · -- int16
    rw [List.cons_append, parseV_tag_d1, readN_exact rest (beBytes_length 2 _)]
    dsimp only
    rw [fromBE_beBytes_of_lt (by omega), if_neg (by omega)]
    simp only [Option.some.injEq, Prod.mk.injEq, MVal.int.injEq, and_true]
    omega
  · -- int8
    rw [List.cons_append, parseV_tag_d0, readN_exact rest (beBytes_length 1 _)]
    dsimp only
    rw [fromBE_beBytes_of_lt (by omega), if_neg (by omega)]
    simp only [Option.some.injEq, Prod.mk.injEq, MVal.int.injEq, and_true]
    omega
  · -- fixint (positive or negative)
    rw [List.singleton_append]
    by_cases h0 : 0 ≤ n
    · rw [parseV_posfix f _ _ (by omega)]
      simp only [Option.some.injEq, Prod.mk.injEq, MVal.int.injEq, and_true]
      omega
    · rw [parseV_negfix f _ _ (by omega) (by omega)]
      simp only [Option.some.injEq, Prod.mk.injEq, MVal.int.injEq, and_true]
      omega
  · -- uint8
    rw [List.cons_append, parseV_tag_cc, readN_exact rest (beBytes_length 1 _)]
    dsimp only
    rw [fromBE_beBytes_of_lt (by omega)]
    simp only [Option.some.injEq, Prod.mk.injEq, MVal.int.injEq, and_true]
    omega
  · -- uint16
    rw [List.cons_append, parseV_tag_cd, readN_exact rest (beBytes_length 2 _)]
    dsimp only
    rw [fromBE_beBytes_of_lt (by omega)]
    simp only [Option.some.injEq, Prod.mk.injEq, MVal.int.injEq, and_true]
    omega
  · -- uint32
    rw [List.cons_append, parseV_tag_ce, readN_exact rest (beBytes_length 4 _)]
    dsimp only
    rw [fromBE_beBytes_of_lt (by omega)]
    simp only [Option.some.injEq, Prod.mk.injEq, MVal.int.injEq, and_true]
    omega
  · -- uint64
    rw [List.cons_append, parseV_tag_cf, readN_exact rest (beBytes_length 8 _)]
    dsimp only
    rw [fromBE_beBytes_of_lt (by omega)]
    simp only [Option.some.injEq, Prod.mk.injEq, MVal.int.injEq, and_true]
    omega

theorem parse_strHeader (s : List Nat) (hlen : s.length < 2 ^ 32) (f : Nat)
    (rest : List Nat) :
    parseV (f + 1) ((strHeader s.length ++ s) ++ rest) = some (.str s, rest) := by
  rw [strHeader]
  split_ifs with h31 h255 h65535
  · rw [List.append_assoc, List.singleton_append,
      parseV_fixstr f _ _ (by omega) (by omega),
      Nat.add_sub_cancel_left, readN_exact rest rfl]
  · rw [List.append_assoc, List.cons_append, parseV_tag_d9,
      readLenData_exact rest (by omega)]
  · rw [List.append_assoc, List.cons_append, parseV_tag_da,
      readLenData_exact rest (by omega)]
  · rw [List.append_assoc, List.cons_append, parseV_tag_db,
      readLenData_exact rest (by omega)]

theorem parse_binHeader (s : List Nat) (hlen : s.length < 2 ^ 32) (f : Nat)
    (rest : List Nat) :
    parseV (f + 1) ((binHeader s.length ++ s) ++ rest) = some (.bin s, rest) := by
  rw [binHeader]
  split_ifs with h255 h65535
  · rw [List.append_assoc, List.cons_append, parseV_tag_c4,
      readLenData_exact rest (by omega)]
  · rw [List.append_assoc, List.cons_append, parseV_tag_c5,
      readLenData_exact rest (by omega)]
  · rw [List.append_assoc, List.cons_append, parseV_tag_c6,
      readLenData_exact rest (by omega)]

theorem parse_flt (bits : Nat) (hb : bits < 2 ^ 64) (f : Nat)
    (rest : List Nat) :
    parseV (f + 1) ((0xcb :: beBytes 8 bits) ++ rest) = some (.flt bits, rest) := by
  rw [List.cons_append, parseV_tag_cb, readN_exact rest (beBytes_length 8 bits)]
  show some (MVal.flt (fromBE (beBytes 8 bits)), rest) = some (MVal.flt bits, rest)
  rw [fromBE_beBytes_of_lt (by omega)]

theorem parseList_step (f n : Nat) (l : List Nat) :
    parseList (f + 1) (n + 1) l =
      (match parseV f l with
       | none => none
       | some (v, r) =>
         match parseList f n r with
         | none => none
         | some (vs, r') => some (.mcons v vs, r')) := rfl

theorem parsePairs_step (f n : Nat) (l : List Nat) :
    parsePairs (f + 1) (n + 1) l =
      (match parseV f l with
       | some (.str k, r) =>
         match parseV f r with
         | none => none
         | some (v, r') =>
           match parsePairs f n r' with
           | none => none
           | some (kvs, r'') => some (.pcons k v kvs, r'')
       | _ => none) := rfl

mutual
/-- Round-trip of the payload serializer: parsing a packed value with
enough fuel returns the value and the unconsumed tail. -/
theorem parse_packV (v : MVal) (h : wfV v = true) :
    ∀ (fuel : Nat), needV v ≤ fuel → ∀ (rest : List Nat),
      parseV fuel (packV v ++ rest) = some (v, rest) := by
  intro fuel hfuel rest
  obtain ⟨f, rfl⟩ : ∃ f, fuel = f + 1 := ⟨fuel - 1, by have := needV_pos v; omega⟩
  cases v with
  | nil => rw [packV, List.cons_append, parseV_tag_c0, List.nil_append]
  | bool b =>
    cases b
    · rw [packV, List.cons_append, parseV_tag_c2, List.nil_append]
    · rw [packV, List.cons_append, parseV_tag_c3, List.nil_append]
  | int n =>
    simp only [wfV, Bool.and_eq_true, decide_eq_true_eq] at h
    rw [packV]
    exact parse_packInt n h.1 h.2 f rest
  | flt bits =>
    simp only [wfV, decide_eq_true_eq] at h
    rw [packV]
    exact parse_flt bits h f rest
  | str s =>
    simp only [wfV, Bool.and_eq_true, decide_eq_true_eq] at h
    rw [packV]
    exact parse_strHeader s h.1 f rest
  | bin b =>
    simp only [wfV, Bool.and_eq_true, decide_eq_true_eq] at h
    rw [packV]
    exact parse_binHeader b h.1 f rest
  | arr vs =>
    simp only [wfV, Bool.and_eq_true, decide_eq_true_eq] at h
    obtain ⟨hlen, hwl⟩ := h
    have hf : needL vs ≤ f := by
      simp only [needV] at hfuel
      omega
    rw [packV, arrHeader]
    split_ifs with h15 h65535
    · rw [List.append_assoc, List.singleton_append,
        parseV_fixarr f _ _ (by omega) (by omega),
        Nat.add_sub_cancel_left, parse_packL vs hwl f hf rest]
    · rw [List.append_assoc, List.cons_append, parseV_tag_dc,
        readN_exact _ (beBytes_length 2 _)]
      dsimp only
      rw [fromBE_beBytes_of_lt (by omega), parse_packL vs hwl f hf rest]
    · rw [List.append_assoc, List.cons_append, parseV_tag_dd,
        readN_exact _ (beBytes_length 4 _)]
      dsimp only
      rw [fromBE_beBytes_of_lt (by omega), parse_packL vs hwl f hf rest]
  | map kvs =>
    simp only [wfV, Bool.and_eq_true, decide_eq_true_eq] at h
    obtain ⟨hlen, hwp⟩ := h
    have hf : needP kvs ≤ f := by
      simp only [needV] at hfuel
      omega
    rw [packV, mapHeader]
    split_ifs with h15 h65535
    · rw [List.append_assoc, List.singleton_append,
        parseV_fixmap f _ _ (by omega) (by omega),
        Nat.add_sub_cancel_left, parse_packP kvs hwp f hf rest]
    · rw [List.append_assoc, List.cons_append, parseV_tag_de,
        readN_exact _ (beBytes_length 2 _)]
      dsimp only
      rw [fromBE_beBytes_of_lt (by omega), parse_packP kvs hwp f hf rest]
    · rw [List.append_assoc, List.cons_append, parseV_tag_df,
        readN_exact _ (beBytes_length 4 _)]
      dsimp only
      rw [fromBE_beBytes_of_lt (by omega), parse_packP kvs hwp f hf rest]

theorem parse_packL (vs : MList) (h : wfL vs = true) :
    ∀ (fuel : Nat), needL vs ≤ fuel → ∀ (rest : List Nat),
      parseList fuel vs.length (packL vs ++ rest) = some (vs, rest) := by
  intro fuel hfuel rest
  cases vs with
  | mnil =>
    rw [packL, List.nil_append]
    cases fuel <;> rfl
  | mcons v vs =>
    simp only [wfL, Bool.and_eq_true] at h
    obtain ⟨hv, hvs⟩ := h
    obtain ⟨f, rfl⟩ : ∃ f, fuel = f + 1 :=
      ⟨fuel - 1, by simp only [needL] at hfuel; omega⟩
    have hfv : needV v ≤ f := by
      simp only [needL] at hfuel
      omega
    have hfvs : needL vs ≤ f := by
      simp only [needL] at hfuel
      omega
    rw [MList.length, packL, parseList_step, List.append_assoc,
      parse_packV v hv f hfv (packL vs ++ rest)]
    dsimp only
    rw [parse_packL vs hvs f hfvs rest]

theorem parse_packP (kvs : MPairs) (h : wfP kvs = true) :
    ∀ (fuel : Nat), needP kvs ≤ fuel → ∀ (rest : List Nat),
      parsePairs fuel kvs.length (packP kvs ++ rest) = some (kvs, rest) := by
  intro fuel hfuel rest
  cases kvs with
  | pnil =>
    rw [packP, List.nil_append]
    cases fuel <;> rfl
  | pcons k v kvs =>
    simp only [wfP, Bool.and_eq_true, decide_eq_true_eq] at h
    obtain ⟨⟨⟨hk, _⟩, hv⟩, hkvs⟩ := h
    have hp1 : 1 ≤ needV v := needV_pos v
    obtain ⟨f, rfl⟩ : ∃ f, fuel = f + 1 :=
      ⟨fuel - 1, by simp only [needP] at hfuel; omega⟩
    have hfv : needV v ≤ f := by
      simp only [needP] at hfuel
      omega
    have hfkvs : needP kvs ≤ f := by
      simp only [needP] at hfuel
      omega
    obtain ⟨f', rfl⟩ : ∃ f', f = f' + 1 := ⟨f - 1, by omega⟩
    rw [MPairs.length, packP, parsePairs_step, List.append_assoc,
      parse_strHeader k hk f' (packV v ++ packP kvs ++ rest)]
    dsimp only
    rw [List.append_assoc,
      parse_packV v hv (f' + 1) hfv (packP kvs ++ rest)]
    dsimp only
    rw [parse_packP kvs hkvs (f' + 1) hfkvs rest]
end

/-- `msgpack.unpackb(msgpack.packb(v)) = v` for well-formed values. -/
theorem unpack_pack (v : MVal) (h : wfV v = true) :
    unpackb (packV v) = some v := by
  rw [unpackb]
  have hn : needV v ≤ 2 * (packV v).length + 2 :=
    le_trans (needV_le_pack v) (by omega)
  have hp := parse_packV v h (2 * (packV v).length + 2) hn []
  rw [List.append_nil] at hp
  rw [hp]

/-! ## Frame codec: `Clasp._encode` / `Clasp._decode` -/

/-- `Clasp._encode(msg)`: msgpack-pack the message and prepend the 4-byte
header `bytes([0x53, 0x00, (len >> 8) & 0xFF, len & 0xFF])` (magic, flags
QoS=0/no-timestamp, big-endian length).  Python's `bytes([...])` raises
`ValueError` for entries outside `[0, 256)` — modelled by the byte-range
check, which the masking makes always pass; the source contains no payload
length check. -/
def encode (msg : MVal) : Option (List Nat) :=
  let payload := packV msg
  let header : List Nat :=
    [0x53, 0x00, payload.length >>> 8 &&& 0xff, payload.length &&& 0xff]
  if header.all fun x => decide (x < 256) then some (header ++ payload)
  else none

/-- `Clasp._decode(data)`: reject buffers under 4 bytes or with a wrong
magic byte (`raise ClaspError("Invalid frame")` — `none` here); otherwise
read the declared big-endian payload length, skip the 8-byte timestamp
when flag bit 0x20 is set (payload offset 12, else 4), slice the payload
by the declared length and msgpack-unpack it. -/
def decode (data : List Nat) : Option MVal :=
  if data.length < 4 ∨ data.head? ≠ some 0x53 then none
  else
    let flags := data.getD 1 0
    let payloadLen := data.getD 2 0 <<< 8 ||| data.getD 3 0
    let offset : Nat := if flags &&& 0x20 ≠ 0 then 12 else 4
    unpackb ((data.drop offset).take payloadLen)

/-- The header byte-range check always passes, so `_encode` returns the
frame with the masked (wrapped) length field. -/
theorem encode_eq (m : MVal) :
    encode m = some ([0x53, 0x00, (packV m).length >>> 8 &&& 0xff,
      (packV m).length &&& 0xff] ++ packV m) := by
  rw [encode]
  rw [if_pos]
  simp only [List.all_cons, List.all_nil, Bool.and_eq_true, decide_eq_true_eq,
    and_true]
  refine ⟨by omega, by omega, ?_, ?_⟩
  · have := Nat.and_le_right (n := (packV m).length >>> 8) (m := 0xff)
    omega
  · have := Nat.and_le_right (n := (packV m).length) (m := 0xff)
    omega

/-- Reassembling the two masked length bytes yields the payload length
modulo 2^16. -/
theorem lenField_value (L : Nat) :
    (L >>> 8 &&& 0xff) <<< 8 ||| (L &&& 0xff) = L % 65536 := by
  have e1 : (0xff : Nat) = 2 ^ 8 - 1 := by norm_num
  have e2 : L &&& 0xff < 2 ^ 8 := by
    have := Nat.and_le_right (n := L) (m := 0xff)
    omega
  rw [Nat.shiftLeft_eq, Nat.mul_comm, ← Nat.mul_add_lt_is_or e2]
  rw [e1, Nat.and_pow_two_sub_one_eq_mod, Nat.and_pow_two_sub_one_eq_mod,
    Nat.shiftRight_eq_div_pow]
  omega

/-! ## Claims C4–C6: frame codec -/

/-- **C4**: decoding the encoding of a well-formed message returns the
message.  Well-formedness is `wfV` plus the §3 frame invariant that the
payload fits the 16-bit length field. -/
theorem decode_encode (m : MVal) (hwf : wfV m = true)
    (hlen : (packV m).length ≤ 65535) :
    ∃ frame, encode m = some frame ∧ decode frame = some m := by
  refine ⟨_, encode_eq m, ?_⟩
  rw [decode, if_neg]
  · simp only [List.cons_append, List.nil_append, List.getD_cons_succ,
      List.getD_cons_zero]
    rw [lenField_value, Nat.mod_eq_of_lt (by omega), if_neg (by decide)]
    simp only [List.drop_succ_cons, List.drop_zero]
    rw [List.take_length]
    exact unpack_pack m hwf
  · push_neg
    constructor
    · simp only [List.cons_append, List.nil_append, List.length_cons]
      omega
    · simp

/-- A small concrete message (`{"type": "SET", "value": 42}` with the keys
and string as UTF-8 bytes) for the C4 witness. -/
def msgW : MVal :=
  .map (.pcons [116, 121, 112, 101] (.str [83, 69, 84])
    (.pcons [118, 97, 108, 117, 101] (.int 42) .pnil))

/-- **C4** witness: the round-trip applied to a concrete message. -/
theorem decode_encode_witness :
    (wfV msgW = true ∧ (packV msgW).length ≤ 65535) ∧
    ∃ frame, encode msgW = some frame ∧ decode frame = some msgW :=
  ⟨⟨by decide, by decide⟩, decode_encode msgW (by decide) (by decide)⟩

/-- A message whose msgpack payload is 65544 bytes — larger than the
16-bit length field allows. -/
def bigMsg : MVal :=
  .map (.pcons [120] (.str (List.replicate 65536 97)) .pnil)

theorem bigMsg_payload_length : (packV bigMsg).length = 65544 := by
  have hrep : (List.replicate 65536 97).length = 65536 :=
    List.length_replicate _ _
  simp only [bigMsg, packV, packP, MPairs.length, List.length_append,
    List.length_cons, List.length_nil, hrep, List.append_nil]
  norm_num [mapHeader, strHeader, beBytes_length]

/-- **C5** (counterexample): `_encode` does not fail on a payload longer
than 65535 bytes — there is no length check in the source; the masked
header bytes always pass the `bytes()` range check and a frame is
produced. -/
theorem encode_oversize_counterexample :
    65535 < (packV bigMsg).length ∧ (encode bigMsg).isSome = true := by
  constructor
  · rw [bigMsg_payload_length]
    omega
  · rw [encode_eq]
    rfl

/-- **C5** (amended): `_encode` never raises; for every message it emits a
frame whose 16-bit length field holds the payload length modulo 2^16, so
payloads over 65535 bytes are framed with a silently wrapped length. -/
theorem encode_never_fails_wraps (m : MVal) :
    encode m = some ([0x53, 0x00, (packV m).length >>> 8 &&& 0xff,
        (packV m).length &&& 0xff] ++ packV m) ∧
    ((packV m).length >>> 8 &&& 0xff) <<< 8 ||| ((packV m).length &&& 0xff) =
      (packV m).length % 65536 :=
  ⟨encode_eq m, lenField_value (packV m).length⟩

/-- **C6**: `_decode` fails (raises `ClaspError`, the spec's
ProtocolError) on every buffer shorter than 4 bytes or whose first byte is
not the magic sentinel 0x53; it never returns a message on such input. -/
theorem decode_invalid (data : List Nat)
    (h : data.length < 4 ∨ data.head? ≠ some 0x53) : decode data = none := by
  rw [decode, if_pos h]

/-- **C6** witness: a short buffer and a wrong-magic buffer. -/
theorem decode_invalid_witness :
    (([82, 0] : List Nat).length < 4 ∨
      ([82, 0] : List Nat).head? ≠ some 0x53) ∧
    decode [82, 0] = none ∧
    (([84, 0, 0, 0, 1] : List Nat).length < 4 ∨
      ([84, 0, 0, 0, 1] : List Nat).head? ≠ some 0x53) ∧
    decode [84, 0, 0, 0, 1] = none :=
  ⟨by decide, decode_invalid [82, 0] (by decide), by decide,
    decode_invalid [84, 0, 0, 0, 1] (by decide)⟩

/-! ## Session view: `get`, `_handle_message`, `_notify_subscribers`

The receive loop mutates three structures: the Parameter Cache
(`self._params`, a dict), the Pending-Request Table (`self._pending_gets`,
a dict keyed by address; only its key set matters to the claims), and the
Subscription Registry (`self._subscriptions`, iterated in insertion
order).  A subscriber callback is modelled by its observable behaviour:
`true` = returns normally, `false` = raises.  The error callbacks
(`self._on_error`) are external observers; their invocation is recorded as
an event. -/

/-- A subscription: id, pattern, callback. -/
structure Sub where
  id : Nat
  pattern : String
  cb : MVal → String → Bool

/-- Python truthiness of a msgpack value: `None`, `False`, zero ints,
`0.0`/`-0.0`, and empty strings / bytes / lists / dicts are falsy. -/
def pyTruthy : MVal → Bool
  | .nil => false
  | .bool b => b
  | .int n => n != 0
  | .flt bits => !(bits == 0 || bits == 0x8000000000000000)
  | .str s => !s.isEmpty
  | .bin b => !b.isEmpty
  | .arr .mnil => false
  | .arr (.mcons _ _) => true
  | .map .pnil => false
  | .map (.pcons _ _ _) => true

/-- `msg.get("value") or msg.get("payload")` on Python values: a missing
field is `None`; `X or Y` yields `X` when `X` is truthy, else `Y`. -/
def pyOr (a b : Option MVal) : MVal :=
  if pyTruthy (a.getD .nil) then a.getD .nil else b.getD .nil

/-- Observable effects of the receive-loop dispatch. -/
inductive Event where
  | called (id : Nat) (value : MVal) (address : String)
  | callbackRaised (id : Nat)
  | errorCb (k : Nat) (id : Nat)
  | resolvedGet (address : String) (value : MVal)

/-- Outbound messages emitted by the modelled operations. -/
inductive OutMsg where
  | getMsg (address : String)
  | pong

/-- Python dict write `m[k] = v` on an insertion-ordered association
list: update in place when the key exists, else append. -/
def dictSet (m : List (String × MVal)) (k : String) (v : MVal) :
    List (String × MVal) :=
  if m.any fun p => p.1 == k then
    m.map fun p => if p.1 == k then (k, v) else p
  else m ++ [(k, v)]

/-- Python dict read `m.get(k)` / `k in m`. -/
def dictGet (m : List (String × MVal)) (k : String) : Option MVal :=
  (m.find? fun p => p.1 == k).map Prod.snd

/-- Register a key in the pending table (`self._pending_gets[address] =
future`: the key set gains `k`; an existing waiter's future is
overwritten, which does not change the key set). -/
def addKey (l : List String) (k : String) : List String :=
  if l.contains k then l else l ++ [k]

/-- `del` of a key from the pending table's key set. -/
def removeKey (l : List String) (k : String) : List String :=
  l.filter fun x => x ≠ k

/-- The mutable session state the receive loop touches. -/
structure SessionView where
  params : List (String × MVal)
  pendingGets : List String
  subs : List Sub
  nErrCbs : Nat

/-- `Clasp._notify_subscribers(address, value)`: iterate all
subscriptions in registry order; on a pattern match invoke the callback
with `(value, address)`; a raise is caught per subscription and every
registered error callback is invoked with the exception. -/
def notifySubscribers (subs : List Sub) (nErrCbs : Nat) (address : String)
    (value : MVal) : List Event :=
  subs.flatMap fun s =>
    if matchPattern s.pattern address then
      if s.cb value address then [.called s.id value address]
      else .callbackRaised s.id ::
        ((List.range nErrCbs).map fun k => .errorCb k s.id)
    else []

/-- An inbound message as `_handle_message` reads it: dispatch is on
`msg["type"]` and only the accessed fields are modelled.  For PUBLISH,
`value?`/`payload?` are `msg.get("value")`/`msg.get("payload")` (`none`
when the field is absent); the handler ignores `signal` and
`timestamp`. -/
inductive InMsg where
  | set (address : String) (value : MVal)
  | snapshot (params : List (String × MVal))
  | publish (address : String) (value? : Option MVal) (payload? : Option MVal)
  | ping
  | errorMsg (code : MVal) (message : MVal)
  | other

/-- One SNAPSHOT entry: store into the cache, resolve-and-delete a
pending get if one is waiting, then notify subscribers. -/
def snapshotEntry (acc : SessionView × List Event) (entry : String × MVal) :
    SessionView × List Event :=
  if acc.1.pendingGets.contains entry.1 then
    ({ acc.1 with
        params := dictSet acc.1.params entry.1 entry.2
        pendingGets := removeKey acc.1.pendingGets entry.1 },
      acc.2 ++ (.resolvedGet entry.1 entry.2 ::
        notifySubscribers acc.1.subs acc.1.nErrCbs entry.1 entry.2))
  else
    ({ acc.1 with params := dictSet acc.1.params entry.1 entry.2 },
      acc.2 ++ notifySubscribers acc.1.subs acc.1.nErrCbs entry.1 entry.2)

/-- `Clasp._handle_message`. -/
def handleMessage (st : SessionView) (msg : InMsg) :
    SessionView × List Event × List OutMsg :=
  match msg with
  | .set address value =>
    ({ st with params := dictSet st.params address value },
      notifySubscribers st.subs st.nErrCbs address value, [])
  | .snapshot ps =>
    let r := ps.foldl snapshotEntry (st, [])
    (r.1, r.2, [])
  | .publish address value? payload? =>
    (st, notifySubscribers st.subs st.nErrCbs address (pyOr value? payload?),
      [])
  | .ping => (st, [], [.pong])
  | .errorMsg _ _ => (st, [], [])
  | .other => (st, [], [])

/-- The synchronous part of `Clasp.get(address)`: return the cached value
when present (no message sent, nothing changed); otherwise register the
pending slot and send a GET. -/
def getStart (st : SessionView) (address : String) :
    Option MVal × SessionView × List OutMsg :=
  match dictGet st.params address with
  | some v => (some v, st, [])
  | none =>
    (none, { st with pendingGets := addKey st.pendingGets address },
      [.getMsg address])

/-- Result of the `get` timeout branch. -/
inductive GetResult where
  | timeoutError
  | keyError

/-- The `asyncio.TimeoutError` branch of `Clasp.get`:
`del self._pending_gets[address]` (KeyError if the slot is gone) then
`raise ClaspError("Get timeout")`. -/
def getOnTimeout (st : SessionView) (address : String) :
    SessionView × GetResult :=
  if st.pendingGets.contains address then
    ({ st with pendingGets := removeKey st.pendingGets address },
      .timeoutError)
  else (st, .keyError)

/-- Processing a sequence of inbound frames through the receive loop. -/
def runInbound (st : SessionView) (msgs : List InMsg) : SessionView :=
  msgs.foldl (fun s m => (handleMessage s m).1) st

/-- Does an inbound message answer a pending get for `address` (a
SNAPSHOT with an entry for that address)? -/
def answersGet (msg : InMsg) (address : String) : Bool :=
  match msg with
  | .snapshot ps => ps.any fun e => e.1 == address
  | _ => false

/-! ## Claims C7–C10: get, correlation, dispatch -/

/-- **C7**: a `get` on a cached address returns the cached value
synchronously, sends no message, and leaves the session state — cache and
pending-request table included — unchanged. -/
theorem get_cached (st : SessionView) (address : String) (v : MVal)
    (h : dictGet st.params address = some v) :
    getStart st address = (some v, st, []) := by
  rw [getStart, h]

def stW7 : SessionView :=
  { params := [("/a", .int 3)], pendingGets := [], subs := [], nErrCbs := 0 }

/-- **C7** witness: a concrete cache hit. -/
theorem get_cached_witness :
    dictGet stW7.params "/a" = some (.int 3) ∧
    getStart stW7 "/a" = (some (.int 3), stW7, []) :=
  ⟨rfl, get_cached stW7 "/a" (.int 3) rfl⟩

theorem snapshot_fold_preserves_pending (ps : List (String × MVal))
    (address : String) :
    (ps.any fun e => e.1 == address) = false →
    ∀ acc : SessionView × List Event, address ∈ acc.1.pendingGets →
      address ∈ (ps.foldl snapshotEntry acc).1.pendingGets := by
  induction ps with
  | nil => exact fun _ acc h => h
  | cons e ps ih =>
    intro hno acc h
    rw [List.any_cons, Bool.or_eq_false_iff] at hno
    obtain ⟨he, hps⟩ := hno
    have hne : address ≠ e.1 := by
      intro hc
      rw [← hc] at he
      simp at he
    rw [List.foldl_cons]
    apply ih hps
    rw [snapshotEntry]
    split
    · show address ∈ removeKey acc.1.pendingGets e.1
      simp only [removeKey, List.mem_filter, decide_eq_true_eq]
      exact ⟨h, hne⟩
    · exact h

theorem handle_preserves_pending (st : SessionView) (m : InMsg)
    (address : String) (hno : answersGet m address = false)
    (hmem : address ∈ st.pendingGets) :
    address ∈ (handleMessage st m).1.pendingGets := by
  cases m with
  | set a v => exact hmem
  | snapshot ps =>
    rw [answersGet] at hno
    exact snapshot_fold_preserves_pending ps address hno (st, []) hmem
  | publish a v p => exact hmem
  | ping => exact hmem
  | errorMsg c msg => exact hmem
  | other => exact hmem

theorem run_preserves_pending (msgs : List InMsg) (address : String)
    (hno : ∀ m ∈ msgs, answersGet m address = false) :
    ∀ st : SessionView, address ∈ st.pendingGets →
      address ∈ (runInbound st msgs).pendingGets := by
  induction msgs with
  | nil => exact fun st h => h
  | cons m msgs ih =>
    intro st h
    exact ih (fun m' hm' => hno m' (List.mem_cons_of_mem _ hm')) _
      (handle_preserves_pending st m address (hno m (List.mem_cons_self _ _)) h)

theorem mem_addKey (l : List String) (k : String) : k ∈ addKey l k := by
  rw [addKey]
  split
  · rename_i h
    exact List.elem_iff.mp h
  · simp

/-- **C8**: a `get` that misses the cache registers a pending slot; if no
subsequently handled inbound message is a SNAPSHOT carrying that address,
the slot is still pending when the timeout fires, and the timeout branch
removes the slot and raises the timeout error, leaving no pending slot
for the address. -/
theorem get_timeout_removes_slot (st0 : SessionView) (address : String)
    (msgs : List InMsg) (hmiss : dictGet st0.params address = none)
    (hnoans : ∀ m ∈ msgs, answersGet m address = false) :
    address ∈ (runInbound (getStart st0 address).2.1 msgs).pendingGets ∧
    getOnTimeout (runInbound (getStart st0 address).2.1 msgs) address =
      ({ runInbound (getStart st0 address).2.1 msgs with
          pendingGets := removeKey
            (runInbound (getStart st0 address).2.1 msgs).pendingGets
            address },
        .timeoutError) ∧
    address ∉ removeKey
      (runInbound (getStart st0 address).2.1 msgs).pendingGets address := by
  have hmem1 : address ∈ (getStart st0 address).2.1.pendingGets := by
    rw [getStart, hmiss]
    exact mem_addKey _ _
  have hmem2 := run_preserves_pending msgs address hnoans _ hmem1
  refine ⟨hmem2, ?_, ?_⟩
  · rw [getOnTimeout, if_pos (List.elem_iff.mpr hmem2)]
  · simp [removeKey, List.mem_filter]

def stW8 : SessionView :=
  { params := [], pendingGets := [], subs := [], nErrCbs := 0 }

def msgsW8 : List InMsg :=
  [.set "/other" (.int 1), .snapshot [("/b", .int 2)], .ping]

/-- **C8** witness: an unanswered `get` on a concrete trace. -/
theorem get_timeout_removes_slot_witness :
    (dictGet stW8.params "/x" = none ∧
      ∀ m ∈ msgsW8, answersGet m "/x" = false) ∧
    ("/x" ∈ (runInbound (getStart stW8 "/x").2.1 msgsW8).pendingGets ∧
      getOnTimeout (runInbound (getStart stW8 "/x").2.1 msgsW8) "/x" =
        ({ runInbound (getStart stW8 "/x").2.1 msgsW8 with
            pendingGets := removeKey
              (runInbound (getStart stW8 "/x").2.1 msgsW8).pendingGets
              "/x" },
          .timeoutError) ∧
      "/x" ∉ removeKey
        (runInbound (getStart stW8 "/x").2.1 msgsW8).pendingGets "/x") :=
  ⟨⟨rfl, by decide⟩,
    get_timeout_removes_slot stW8 "/x" msgsW8 rfl (by decide)⟩

/-- **C9**: dispatch isolation.  During `_notify_subscribers`, every
matching subscription is reached regardless of what other callbacks do:
one whose callback returns normally contributes its invocation event, and
one whose callback raises contributes a caught-exception event plus one
invocation of every registered error callback — the exception never
escapes the loop (the dispatch function is total by construction). -/
theorem notify_isolation (subs : List Sub) (n : Nat) (value : MVal)
    (address : String) (s : Sub) (hs : s ∈ subs)
    (hm : matchPattern s.pattern address = true) :
    (s.cb value address = true →
      Event.called s.id value address ∈
        notifySubscribers subs n address value) ∧
    (s.cb value address = false →
      Event.callbackRaised s.id ∈ notifySubscribers subs n address value ∧
      ∀ k, k < n →
        Event.errorCb k s.id ∈ notifySubscribers subs n address value) := by
  constructor
  · intro hcb
    refine List.mem_flatMap.mpr ⟨s, hs, ?_⟩
    rw [if_pos hm, if_pos hcb]
    exact List.mem_singleton.mpr rfl
  · intro hcb
    constructor
    · refine List.mem_flatMap.mpr ⟨s, hs, ?_⟩
      rw [if_pos hm, if_neg (by simp [hcb])]
      exact List.mem_cons_self _ _
    · intro k hk
      refine List.mem_flatMap.mpr ⟨s, hs, ?_⟩
      rw [if_pos hm, if_neg (by simp [hcb])]
      exact List.mem_cons_of_mem _
        (List.mem_map.mpr ⟨k, List.mem_range.mpr hk, rfl⟩)

def subRaiseW : Sub := ⟨1, "/s", fun _ _ => false⟩

def subOkW : Sub := ⟨2, "/s", fun _ _ => true⟩

/-- **C9** witness: a raising subscriber listed before a well-behaved one
does not stop the second from being invoked. -/
theorem notify_isolation_witness :
    (subOkW ∈ [subRaiseW, subOkW] ∧
      matchPattern subOkW.pattern "/s" = true) ∧
    ((subOkW.cb (.int 7) "/s" = true →
        Event.called subOkW.id (.int 7) "/s" ∈
          notifySubscribers [subRaiseW, subOkW] 1 "/s" (.int 7)) ∧
      (subOkW.cb (.int 7) "/s" = false →
        Event.callbackRaised subOkW.id ∈
          notifySubscribers [subRaiseW, subOkW] 1 "/s" (.int 7) ∧
        ∀ k, k < 1 →
          Event.errorCb k subOkW.id ∈
            notifySubscribers [subRaiseW, subOkW] 1 "/s" (.int 7))) :=
  ⟨⟨List.mem_cons_of_mem _ (List.mem_cons_self _ _), by decide⟩,
    notify_isolation [subRaiseW, subOkW] 1 (.int 7) "/s" subOkW
      (List.mem_cons_of_mem _ (List.mem_cons_self _ _)) (by decide)⟩

/-- **C10**: an inbound PUBLISH whose `value` field is falsy (0, 0.0,
False, "", empty containers, or absent) delivers the `payload` field to
matching subscribers instead — `value = msg.get("value") or
msg.get("payload")` in the handler. -/
theorem publish_falsy_delivers_payload (st : SessionView) (address : String)
    (value? payload? : Option MVal)
    (h : pyTruthy (value?.getD .nil) = false) :
    handleMessage st (.publish address value? payload?) =
      (st, notifySubscribers st.subs st.nErrCbs address (payload?.getD .nil),
        []) := by
  rw [handleMessage, pyOr, if_neg (by simp [h])]

def stW10 : SessionView :=
  { params := [], pendingGets := [], subs := [subOkW], nErrCbs := 0 }

/-- **C10** witness: a stream PUBLISH carrying `value = 0` (payload
absent) delivers `None`, not `0`, to the matching subscriber. -/
theorem publish_falsy_delivers_payload_witness :
    pyTruthy ((some (MVal.int 0)).getD .nil) = false ∧
    handleMessage stW10 (.publish "/s" (some (.int 0)) none) =
      (stW10,
        notifySubscribers stW10.subs stW10.nErrCbs "/s"
          ((none : Option MVal).getD .nil),
        []) ∧
    notifySubscribers stW10.subs stW10.nErrCbs "/s"
        ((none : Option MVal).getD .nil) =
      [Event.called 2 .nil "/s"] :=
  ⟨rfl,
    publish_falsy_delivers_payload stW10 "/s" (some (.int 0)) none rfl,
    rfl⟩

example : packV (.int 5) = [5] := by decide
example : packV (.int (-1)) = [0xff] := by decide
example : packV (.int 128) = [0xcc, 128] := by decide
example : packV (.int (-129)) = [0xd1, 0xff, 0x7f] := by decide
example : packV (.str [97, 98]) = [0xa2, 97, 98] := by decide
example : unpackb (packV (.int 5)) = some (.int 5) := by rfl
example : unpackb (packV (.int (-129))) = some (.int (-129)) := by rfl
example : unpackb (packV (.arr (.mcons .nil (.mcons (.bool true) .mnil)))) =
    some (.arr (.mcons .nil (.mcons (.bool true) .mnil))) := by rfl
example : unpackb (packV (.map (.pcons [97] (.int 3) .pnil))) =
    some (.map (.pcons [97] (.int 3) .pnil)) := by rfl

end Clasp
